import Mathlib

/-!
Verification of the FSB5 MPEG repair core (`src/encode/mpeg_fix.rs`) and its
stream-encoder boundary wrapper (`src/encode/mpeg.rs`).

Bytes are modelled as `Nat` (the Rust code reads `u8` values; every operation
used here — equality tests, `&&&`, `>>>` — agrees with the `u8` semantics on
values below 256, and no operation in the scanner can produce an out-of-range
byte since input bytes are only compared and copied).  Rust `i32` arithmetic is
modelled as `Int` with truncating division `Int.tdiv` and remainder `Int.tmod`,
which is exact because all intermediate values in the frame-length formula stay
far below 2^31.  The scanner's `while` loop is modelled as a fuel-indexed
recursion (`scanFramesFuel`); `input.length + 1` fuel is proved sufficient, and
`scanFrames` / `fix_fsb5_mpeg` are the fuelled function at that fuel.  The
Rust loop pushes each frame's bytes onto a growing output vector; here the
scan yields the list of copied frames and the output vector is its
concatenation (`List.flatten`).
-/

/-- MPEG-1 Layer I bitrate table (kbps), from `V1_BITRATES_L1`. -/
def V1_BITRATES_L1 : List Int :=
  [0, 32, 64, 96, 128, 160, 192, 224, 256, 288, 320, 352, 384, 416, 448, -1]

/-- MPEG-1 Layer II bitrate table (kbps), from `V1_BITRATES_L2`. -/
def V1_BITRATES_L2 : List Int :=
  [0, 32, 48, 56, 64, 80, 96, 112, 128, 160, 192, 224, 256, 320, 384, -1]

/-- MPEG-1 Layer III bitrate table (kbps), from `V1_BITRATES_L3`. -/
def V1_BITRATES_L3 : List Int :=
  [0, 32, 40, 48, 56, 64, 80, 96, 112, 128, 160, 192, 224, 256, 320, -1]

/-- MPEG-2/2.5 Layer I bitrate table (kbps), from `V2_BITRATES_L1`. -/
def V2_BITRATES_L1 : List Int :=
  [0, 32, 48, 56, 64, 80, 96, 112, 128, 144, 160, 176, 192, 224, 256, -1]

/-- MPEG-2/2.5 Layer II/III shared bitrate table (kbps), from `V2_BITRATES_L2L3`. -/
def V2_BITRATES_L2L3 : List Int :=
  [0, 8, 16, 24, 32, 40, 48, 56, 64, 80, 96, 112, 128, 144, 160, -1]

/-- Sample rates for MPEG-1, from `SAMPLE_RATES_V1`. -/
def SAMPLE_RATES_V1 : List Int := [44100, 48000, 32000, -1]

/-- Sample rates for MPEG-2, from `SAMPLE_RATES_V2`. -/
def SAMPLE_RATES_V2 : List Int := [22050, 24000, 16000, -1]

/-- Sample rates for MPEG-2.5, from `SAMPLE_RATES_V25`. -/
def SAMPLE_RATES_V25 : List Int := [11025, 12000, 8000, -1]

/-- `get_mpeg_bitrate` from `mpeg_fix.rs`: bitrate in kbps from the MPEG
version index (0 = MPEG1, 1 = MPEG2, 2 = MPEG2.5), the layer (1..3) and the
bitrate index (0..15).  For MPEG-2/2.5 Layer III the Layer II table is used
(the Rust code remaps `layer = 2` before the lookup); the table accesses are
in-bounds in Rust because the index is masked to 4 bits, so the `getD`
default is never consulted. -/
def get_mpeg_bitrate (mpegVersionIndex layer bitrateIndex : Nat) : Int :=
  let layer' := if 1 ≤ mpegVersionIndex ∧ layer = 3 then 2 else layer
  match mpegVersionIndex with
  | 0 =>
    match layer' with
    | 1 => V1_BITRATES_L1.getD bitrateIndex (-1)
    | 2 => V1_BITRATES_L2.getD bitrateIndex (-1)
    | 3 => V1_BITRATES_L3.getD bitrateIndex (-1)
    | _ => -1
  | _ =>
    match layer' with
    | 1 => V2_BITRATES_L1.getD bitrateIndex (-1)
    | 2 => V2_BITRATES_L2L3.getD bitrateIndex (-1)
    | 3 => V2_BITRATES_L2L3.getD bitrateIndex (-1)
    | _ => -1

/-- `get_mpeg_sample_rate` from `mpeg_fix.rs`: sample rate in Hz from the MPEG
version index and the sample-rate index (0..3). -/
def get_mpeg_sample_rate (mpegVersionIndex sampleRateIndex : Nat) : Int :=
  match mpegVersionIndex with
  | 0 => SAMPLE_RATES_V1.getD sampleRateIndex (-1)
  | 1 => SAMPLE_RATES_V2.getD sampleRateIndex (-1)
  | 2 => SAMPLE_RATES_V25.getD sampleRateIndex (-1)
  | _ => -1

/-- `get_mpeg_frame_len_bytes` from `mpeg_fix.rs`.  Rust `i32` division
truncates toward zero, which is `Int.tdiv`. -/
def get_mpeg_frame_len_bytes (layer : Nat) (bitrate_kbps sample_rate_hz padding : Int) :
    Int :=
  if layer = 1 then
    ((12 * bitrate_kbps * 1000).tdiv sample_rate_hz + padding) * 4
  else
    (144 * bitrate_kbps * 1000).tdiv sample_rate_hz + padding

/-- `next_multiple_of_4` from `mpeg_fix.rs`.  Rust `%` on `i32` is the
truncating remainder `Int.tmod`. -/
def next_multiple_of_4 (n : Int) : Int :=
  let rem := n.tmod 4
  if rem = 0 then n else n + (4 - rem)

/-- The sync check of `fix_fsb5_mpeg` at a cursor position: first byte `0xFF`,
top nibble of the second byte `0xF` (`b0 != 0xFF || (b1 & 0xF0) != 0xF0`
negated). -/
def headerSync (input : List Nat) (pos : Nat) : Prop :=
  input.getD pos 0 = 0xFF ∧ (input.getD (pos + 1) 0) &&& 0xF0 = 0xF0

instance (input : List Nat) (pos : Nat) : Decidable (headerSync input pos) := by
  unfold headerSync; infer_instance

/-- MPEG version index decoded from the header: `3 - ((header[1] >> 3) & 0x03)`
(the `u8` subtraction cannot wrap since the masked field is at most 3). -/
def hVersionIdx (input : List Nat) (pos : Nat) : Nat :=
  3 - ((input.getD (pos + 1) 0 >>> 3) &&& 0x03)

/-- Layer decoded from the header: `4 - ((header[1] >> 1) & 0x03)`. -/
def hLayer (input : List Nat) (pos : Nat) : Nat :=
  4 - ((input.getD (pos + 1) 0 >>> 1) &&& 0x03)

/-- Bitrate index decoded from the header: `(header[2] >> 4) & 0x0F`. -/
def hBitrateIndex (input : List Nat) (pos : Nat) : Nat :=
  (input.getD (pos + 2) 0 >>> 4) &&& 0x0F

/-- Sample-rate index decoded from the header: `(header[2] >> 2) & 0x03`. -/
def hSampleRateIndex (input : List Nat) (pos : Nat) : Nat :=
  (input.getD (pos + 2) 0 >>> 2) &&& 0x03

/-- Padding flag decoded from the header: `(header[2] >> 1) & 0x01`. -/
def hPadding (input : List Nat) (pos : Nat) : Nat :=
  (input.getD (pos + 2) 0 >>> 1) &&& 0x01

/-- Resolved bitrate for the header at `pos`. -/
def hBitrate (input : List Nat) (pos : Nat) : Int :=
  get_mpeg_bitrate (hVersionIdx input pos) (hLayer input pos) (hBitrateIndex input pos)

/-- Resolved sample rate for the header at `pos`. -/
def hSampleRate (input : List Nat) (pos : Nat) : Int :=
  get_mpeg_sample_rate (hVersionIdx input pos) (hSampleRateIndex input pos)

/-- Computed frame length for the header at `pos`. -/
def hFrameLen (input : List Nat) (pos : Nat) : Int :=
  get_mpeg_frame_len_bytes (hLayer input pos) (hBitrate input pos)
    (hSampleRate input pos) (hPadding input pos)

/-- All the per-header checks of the scan loop: sync, layer in 1..3, positive
bitrate, positive sample rate, frame length at least 4. -/
def validHeaderAt (input : List Nat) (pos : Nat) : Prop :=
  headerSync input pos ∧
  (1 ≤ hLayer input pos ∧ hLayer input pos ≤ 3) ∧
  0 < hBitrate input pos ∧
  0 < hSampleRate input pos ∧
  4 ≤ hFrameLen input pos

instance (input : List Nat) (pos : Nat) : Decidable (validHeaderAt input pos) := by
  unfold validHeaderAt; infer_instance

/-- Number of leading zero bytes of a list; drives the `while pos < end &&
input[pos] == 0` zero-skipping loop of `fix_fsb5_mpeg`. -/
def countZeros : List Nat → Nat
  | [] => 0
  | b :: rest => if b = 0 then countZeros rest + 1 else 0

/-- The zero-skipping loop of `fix_fsb5_mpeg`: the first position at or after
`pos` (and at most `input.length`) holding a non-zero byte. -/
def skipZeros (input : List Nat) (pos : Nat) : Nat :=
  pos + countZeros (input.drop pos)

/-- The cursor adjustment of `fix_fsb5_mpeg` after a frame has been copied
and the cursor advanced to `pos` (lines 83..97): if at least two bytes remain
and they do not look like a sync pattern, seek to the next 4-byte alignment of
the frame length (clamped to the end), skip zero bytes, and if not at the end
step back one byte (`saturating_sub`, which on `Nat` is plain subtraction). -/
def align_after_frame (input : List Nat) (pos : Nat) (frameLen : Int) : Nat :=
  if pos + 2 ≤ input.length ∧ ¬ headerSync input pos then
    if skipZeros input
        (min (pos + (next_multiple_of_4 frameLen - frameLen).toNat) input.length) <
        input.length then
      skipZeros input
        (min (pos + (next_multiple_of_4 frameLen - frameLen).toNat) input.length) - 1
    else
      skipZeros input
        (min (pos + (next_multiple_of_4 frameLen - frameLen).toNat) input.length)
  else pos

/-- The scan loop of `fix_fsb5_mpeg`, as a fuel-indexed recursion returning
the list of copied frames (`none` only if the fuel runs out, which
`input.length + 1` fuel never does).  Each iteration mirrors lines 23..98 of
`mpeg_fix.rs`: stop when fewer than 4 bytes remain; reject a candidate header
(cursor + 1) when the sync check, the layer range check, the bitrate check,
the sample-rate check or the minimum-frame-length check fails; stop without
copying when the full frame does not fit; otherwise copy the frame, advance
by its length and run the cursor adjustment. -/
def scanFramesFuel : Nat → List Nat → Nat → Option (List (List Nat))
  | 0, _, _ => none
  | fuel + 1, input, pos =>
    if pos + 4 ≤ input.length then
      if headerSync input pos then
        if 1 ≤ hLayer input pos ∧ hLayer input pos ≤ 3 then
          if hBitrate input pos ≤ 0 then
            scanFramesFuel fuel input (pos + 1)
          else if hSampleRate input pos ≤ 0 then
            scanFramesFuel fuel input (pos + 1)
          else if hFrameLen input pos < 4 then
            scanFramesFuel fuel input (pos + 1)
          else if input.length < pos + (hFrameLen input pos).toNat then
            some []
          else
            (scanFramesFuel fuel input
                (align_after_frame input (pos + (hFrameLen input pos).toNat)
                  (hFrameLen input pos))).map
              (fun rest => (input.drop pos).take (hFrameLen input pos).toNat :: rest)
        else scanFramesFuel fuel input (pos + 1)
      else scanFramesFuel fuel input (pos + 1)
    else some []

/-- The frames copied by `fix_fsb5_mpeg` when scanning `input` from `pos`. -/
def scanFrames (input : List Nat) (pos : Nat) : List (List Nat) :=
  (scanFramesFuel (input.length + 1) input pos).getD []

/-- `fix_fsb5_mpeg` from `mpeg_fix.rs`: the output vector is the concatenation
of the copied frames. -/
def fix_fsb5_mpeg (input : List Nat) : List Nat :=
  (scanFrames input 0).flatten

/-! ### The stream-encoder boundary wrapper (`mpeg.rs`) -/

/-- Modelled from the spec: `crate::header::StreamInfo` is not under `src/`;
per the spec it carries the declared stream byte length (`info.size.get()`). -/
structure StreamInfo where
  size : Nat
deriving DecidableEq

/-- An opaque underlying I/O failure cause (`std::io::Error`), identified by a
code so that error values can be compared in examples. -/
structure IoError where
  code : Nat
deriving DecidableEq

/-- `MpegErrorKind` from `mpeg.rs`. -/
inductive MpegErrorKind
  | CreateHeader
  | EncodeStream
deriving DecidableEq

/-- `MpegError` from `mpeg.rs`: a kind plus the underlying I/O failure. -/
structure MpegError where
  kind : MpegErrorKind
  source : IoError
deriving DecidableEq

/-- Modelled from the spec: `crate::read::Reader` and its `limit` adaptor are
not under `src/`.  Per the spec the encoder "reads exactly `stream_info.size`
bytes from the reader" and "any failure to read the declared byte count
surfaces as `EncodeStream`", so reading yields exactly the declared count of
bytes from the source, or an I/O error when the source cannot supply them. -/
def readExact (source : List Nat) (n : Nat) : Except IoError (List Nat) :=
  if n ≤ source.length then .ok (source.take n) else .error ⟨0⟩

/-- `encode` from `mpeg.rs`: read the declared number of raw bytes, repair
them with `fix_fsb5_mpeg`, write the repaired bytes to the sink in full and
return the sink; both the read and the write wrap their I/O failure in an
`MpegError` of kind `EncodeStream`.  The sink and its `write_all` are
abstracted as a function from the written bytes to the resulting sink or an
I/O error. -/
def encode (info : StreamInfo) (source : List Nat)
    (writeAll : List Nat → Except IoError (List Nat)) :
    Except MpegError (List Nat) :=
  match readExact source info.size with
  | .error e => .error ⟨MpegErrorKind.EncodeStream, e⟩
  | .ok raw =>
    match writeAll (fix_fsb5_mpeg raw) with
    | .error e => .error ⟨MpegErrorKind.EncodeStream, e⟩
    | .ok sink => .ok sink

/-! ### Concrete inputs used in witnesses and counterexamples -/

/-- A clean 48-byte MPEG-2 Layer III frame: header `FF F2 14 00` decodes to
version index 1, layer 3, bitrate index 1 (8 kbps via the shared MPEG-2
Layer II/III table), sample-rate index 1 (24000 Hz), no padding, giving a
frame length of 144 * 8 * 1000 / 24000 = 48 bytes. -/
def frame48 : List Nat := [0xFF, 0xF2, 0x14] ++ List.replicate 45 0

/-- 95 bytes: a 48-byte frame as in `frame48` except that its final byte is
`0xFF`, followed by `F2 14` and 45 zero bytes.  After the first frame is
copied, the two bytes at the cursor (`F2 14`) are not a sync pattern, the
4-byte alignment seek is zero, no zero bytes are skipped, and the step-back
rule moves the cursor one byte back onto the `0xFF` that was already copied,
where a second, overlapping 48-byte frame validates and is copied. -/
def overlapInput : List Nat :=
  [0xFF, 0xF2, 0x14] ++ List.replicate 44 0 ++ [0xFF, 0xF2, 0x14] ++ List.replicate 45 0

/-- A sync-valid MPEG-1 Layer III header whose bitrate index is 0 (the
"free" slot): `FF FA 00 00`. -/
def freeBitrateInput : List Nat := [0xFF, 0xFA, 0x00, 0x00]

/-- A `frame48` header followed by too few payload bytes (10 bytes total,
frame length 48). -/
def truncatedInput : List Nat := [0xFF, 0xF2, 0x14, 0x00, 0, 0, 0, 0, 0, 0]

/-- Bytes exercising both cursor-adjustment cases: a sync pattern at offset 2
and a zero run at offsets 4..5 terminated by a non-zero byte at offset 6. -/
def c7W : List Nat := [1, 2, 0xFF, 0xF0, 0, 0, 7, 8]

/-- A genuine MPEG-2.5 frame header: `FF E2 14 00` carries version-bit field
`(0xE2 >>> 3) &&& 3 = 0`, and its second byte fails this scanner's
`(b & 0xF0) == 0xF0` sync test. -/
def mpeg25Input : List Nat := [0xFF, 0xE2, 0x14, 0x00]

/-! ### Basic list and zero-run lemmas -/

lemma getD_drop (l : List Nat) (s i : Nat) : (l.drop s).getD i 0 = l.getD (s + i) 0 := by
  simp [List.getD_eq_getElem?_getD, List.getElem?_drop]

lemma getD_take (l : List Nat) (n i : Nat) (h : i < n) :
    (l.take n).getD i 0 = l.getD i 0 := by
  simp [List.getD_eq_getElem?_getD, List.getElem?_take, h]

lemma frame_getD (input : List Nat) (pos n i : Nat) (hi : i < n) :
    ((input.drop pos).take n).getD i 0 = input.getD (pos + i) 0 := by
  rw [getD_take _ _ _ hi, getD_drop]

lemma frame_length (input : List Nat) (pos n : Nat) (h : pos + n ≤ input.length) :
    ((input.drop pos).take n).length = n := by
  rw [List.length_take, List.length_drop]
  exact min_eq_left (by omega)

lemma countZeros_le_length : ∀ l : List Nat, countZeros l ≤ l.length := by
  intro l
  induction l with
  | nil => simp [countZeros]
  | cons b rest ih =>
    simp only [countZeros, List.length_cons]
    split <;> omega

lemma countZeros_zero_below : ∀ (l : List Nat) (i : Nat), i < countZeros l → l.getD i 0 = 0 := by
  intro l
  induction l with
  | nil => simp [countZeros]
  | cons b rest ih =>
    intro i hi
    simp only [countZeros] at hi
    by_cases hb : b = 0
    · rw [if_pos hb] at hi
      cases i with
      | zero => simpa using hb
      | succ i => exact ih i (by omega)
    · rw [if_neg hb] at hi; omega

lemma countZeros_stop : ∀ l : List Nat, countZeros l < l.length → l.getD (countZeros l) 0 ≠ 0 := by
  intro l
  induction l with
  | nil => simp [countZeros]
  | cons b rest ih =>
    intro h
    simp only [countZeros] at h ⊢
    by_cases hb : b = 0
    · rw [if_pos hb] at h ⊢
      simpa using ih (by simpa using h)
    · rw [if_neg hb]
      simpa using hb

lemma skipZeros_ge (input : List Nat) (p : Nat) : p ≤ skipZeros input p :=
  Nat.le_add_right _ _

lemma skipZeros_le_length (input : List Nat) (p : Nat) (h : p ≤ input.length) :
    skipZeros input p ≤ input.length := by
  unfold skipZeros
  have := countZeros_le_length (input.drop p)
  rw [List.length_drop] at this
  omega

lemma skipZeros_zero_below (input : List Nat) (p i : Nat) (h1 : p ≤ i)
    (h2 : i < skipZeros input p) : input.getD i 0 = 0 := by
  have := countZeros_zero_below (input.drop p) (i - p) (by unfold skipZeros at h2; omega)
  rw [getD_drop] at this
  have heq : p + (i - p) = i := by omega
  rwa [heq] at this

lemma skipZeros_stop (input : List Nat) (p : Nat) (h : skipZeros input p < input.length) :
    input.getD (skipZeros input p) 0 ≠ 0 := by
  have hlt : countZeros (input.drop p) < (input.drop p).length := by
    rw [List.length_drop]
    unfold skipZeros at h
    omega
  have := countZeros_stop (input.drop p) hlt
  rw [getD_drop] at this
  unfold skipZeros
  exact this

/-! ### Bounds for the cursor adjustment -/

lemma align_after_frame_ge (input : List Nat) (pos : Nat) (L : Int)
    (h : pos ≤ input.length) : pos ≤ align_after_frame input pos L + 1 := by
  unfold align_after_frame
  split
  · have h1 : pos ≤ min (pos + (next_multiple_of_4 L - L).toNat) input.length :=
      le_min (Nat.le_add_right _ _) h
    have h2 := skipZeros_ge input
      (min (pos + (next_multiple_of_4 L - L).toNat) input.length)
    split <;> omega
  · omega

lemma align_after_frame_le (input : List Nat) (pos : Nat) (L : Int)
    (h : pos ≤ input.length) : align_after_frame input pos L ≤ input.length := by
  unfold align_after_frame
  split
  · have h2 := skipZeros_le_length input
      (min (pos + (next_multiple_of_4 L - L).toNat) input.length) (min_le_right _ _)
    split <;> omega
  · omega

/-! ### Fuel adequacy for the scan loop -/

lemma scanFramesFuel_stable (input : List Nat) :
    ∀ fuel pos, input.length - pos < fuel →
      scanFramesFuel (fuel + 1) input pos = scanFramesFuel fuel input pos := by
  intro fuel
  induction fuel with
  | zero => intro pos h; omega
  | succ fuel ih =>
    intro pos h
    conv_lhs => rw [scanFramesFuel]
    conv_rhs => rw [scanFramesFuel]
    split
    next h4 =>
      have hrej : input.length - (pos + 1) < fuel := by omega
      split
      next hs =>
        split
        next hl =>
          split
          next => exact ih (pos + 1) hrej
          next =>
            split
            next => exact ih (pos + 1) hrej
            next =>
              split
              next => exact ih (pos + 1) hrej
              next =>
                split
                next => rfl
                next hfit =>
                  have hL : (4 : Int) ≤ hFrameLen input pos := by
                    rename_i hlen4
                    omega
                  have h3 : pos + (hFrameLen input pos).toNat ≤ input.length := by omega
                  have hge := align_after_frame_ge input (pos + (hFrameLen input pos).toNat)
                    (hFrameLen input pos) h3
                  have htn : 4 ≤ (hFrameLen input pos).toNat := by omega
                  rw [ih (align_after_frame input (pos + (hFrameLen input pos).toNat)
                    (hFrameLen input pos)) (by omega)]
        next => exact ih (pos + 1) hrej
      next => exact ih (pos + 1) hrej
    next => rfl

lemma scanFramesFuel_isSome (input : List Nat) :
    ∀ fuel pos, input.length - pos < fuel →
      (scanFramesFuel fuel input pos).isSome := by
  intro fuel
  induction fuel with
  | zero => intro pos h; omega
  | succ fuel ih =>
    intro pos h
    rw [scanFramesFuel]
    split
    next h4 =>
      have hrej : input.length - (pos + 1) < fuel := by omega
      split
      next hs =>
        split
        next hl =>
          split
          next => exact ih (pos + 1) hrej
          next =>
            split
            next => exact ih (pos + 1) hrej
            next =>
              split
              next => exact ih (pos + 1) hrej
              next hlen4 =>
                split
                next => rfl
                next hfit =>
                  have hL : (4 : Int) ≤ hFrameLen input pos := by omega
                  have h3 : pos + (hFrameLen input pos).toNat ≤ input.length := by omega
                  have hge := align_after_frame_ge input (pos + (hFrameLen input pos).toNat)
                    (hFrameLen input pos) h3
                  have htn : 4 ≤ (hFrameLen input pos).toNat := by omega
                  simpa using ih (align_after_frame input (pos + (hFrameLen input pos).toNat)
                    (hFrameLen input pos)) (by omega)
        next => exact ih (pos + 1) hrej
      next => exact ih (pos + 1) hrej
    next => rfl

lemma scanFramesFuel_add (input : List Nat) (fuel k pos : Nat)
    (h : input.length - pos < fuel) :
    scanFramesFuel (fuel + k) input pos = scanFramesFuel fuel input pos := by
  induction k with
  | zero => rfl
  | succ k ih =>
    have : fuel + (k + 1) = (fuel + k) + 1 := by omega
    rw [this, scanFramesFuel_stable input (fuel + k) pos (by omega), ih]

lemma scanFramesFuel_norm (input : List Nat) (fuel pos : Nat)
    (h : input.length - pos < fuel) :
    scanFramesFuel fuel input pos = scanFramesFuel (input.length + 1) input pos := by
  have h2 : input.length - pos < input.length + 1 := by omega
  rcases Nat.le_total fuel (input.length + 1) with hle | hle
  · have heq : input.length + 1 = fuel + (input.length + 1 - fuel) := by omega
    rw [heq, scanFramesFuel_add input fuel _ pos h]
  · have heq : fuel = (input.length + 1) + (fuel - (input.length + 1)) := by omega
    rw [heq, scanFramesFuel_add input _ _ pos h2]

lemma scanFrames_some (input : List Nat) (pos : Nat) :
    scanFramesFuel (input.length + 1) input pos = some (scanFrames input pos) := by
  have h := scanFramesFuel_isSome input (input.length + 1) pos (by omega)
  obtain ⟨v, hv⟩ := Option.isSome_iff_exists.mp h
  rw [hv]
  simp [scanFrames, hv]

/-- One unfolding of the scan loop in terms of `scanFrames` itself. -/
lemma scanFrames_eq (input : List Nat) (pos : Nat) :
    scanFrames input pos =
      if pos + 4 ≤ input.length then
        if headerSync input pos then
          if 1 ≤ hLayer input pos ∧ hLayer input pos ≤ 3 then
            if hBitrate input pos ≤ 0 then scanFrames input (pos + 1)
            else if hSampleRate input pos ≤ 0 then scanFrames input (pos + 1)
            else if hFrameLen input pos < 4 then scanFrames input (pos + 1)
            else if input.length < pos + (hFrameLen input pos).toNat then []
            else
              (input.drop pos).take (hFrameLen input pos).toNat ::
                scanFrames input
                  (align_after_frame input (pos + (hFrameLen input pos).toNat)
                    (hFrameLen input pos))
          else scanFrames input (pos + 1)
        else scanFrames input (pos + 1)
      else [] := by
  unfold scanFrames
  conv_lhs => rw [scanFramesFuel]
  split
  next h4 =>
    have hrej : input.length - (pos + 1) < input.length := by omega
    split
    next hs =>
      split
      next hl =>
        split
        next => rw [scanFramesFuel_norm input input.length (pos + 1) hrej]
        next =>
          split
          next => rw [scanFramesFuel_norm input input.length (pos + 1) hrej]
          next =>
            split
            next => rw [scanFramesFuel_norm input input.length (pos + 1) hrej]
            next hlen4 =>
              split
              next => rfl
              next hfit =>
                have hL : (4 : Int) ≤ hFrameLen input pos := by omega
                have h3 : pos + (hFrameLen input pos).toNat ≤ input.length := by omega
                have hge := align_after_frame_ge input (pos + (hFrameLen input pos).toNat)
                  (hFrameLen input pos) h3
                have htn : 4 ≤ (hFrameLen input pos).toNat := by omega
                rw [scanFramesFuel_norm input input.length
                  (align_after_frame input (pos + (hFrameLen input pos).toNat)
                    (hFrameLen input pos)) (by omega)]
                rw [scanFrames_some input
                  (align_after_frame input (pos + (hFrameLen input pos).toNat)
                    (hFrameLen input pos))]
                rfl
      next => rw [scanFramesFuel_norm input input.length (pos + 1) hrej]
    next => rw [scanFramesFuel_norm input input.length (pos + 1) hrej]
  next => rfl

/-! ### Branch lemmas for the scan loop -/

lemma scanFrames_stop (input : List Nat) (pos : Nat) (h : input.length < pos + 4) :
    scanFrames input pos = [] := by
  rw [scanFrames_eq, if_neg (by omega)]

/-- Every candidate header that fails one of the five checks makes the cursor
advance by exactly one byte. -/
lemma scanFrames_reject (input : List Nat) (pos : Nat) (h4 : pos + 4 ≤ input.length)
    (hrej : ¬ validHeaderAt input pos) :
    scanFrames input pos = scanFrames input (pos + 1) := by
  rw [scanFrames_eq, if_pos h4]
  by_cases hs : headerSync input pos
  · rw [if_pos hs]
    by_cases hl : 1 ≤ hLayer input pos ∧ hLayer input pos ≤ 3
    · rw [if_pos hl]
      by_cases hb : hBitrate input pos ≤ 0
      · rw [if_pos hb]
      · rw [if_neg hb]
        by_cases hsr : hSampleRate input pos ≤ 0
        · rw [if_pos hsr]
        · rw [if_neg hsr]
          by_cases hfl : hFrameLen input pos < 4
          · rw [if_pos hfl]
          · exact absurd ⟨hs, hl, by omega, by omega, by omega⟩ hrej
    · rw [if_neg hl]
  · rw [if_neg hs]

lemma scanFrames_break (input : List Nat) (pos : Nat) (h4 : pos + 4 ≤ input.length)
    (hv : validHeaderAt input pos)
    (hfit : input.length < pos + (hFrameLen input pos).toNat) :
    scanFrames input pos = [] := by
  obtain ⟨hs, hl, hb, hsr, hfl⟩ := hv
  rw [scanFrames_eq, if_pos h4, if_pos hs, if_pos hl, if_neg (by omega : ¬ hBitrate input pos ≤ 0),
    if_neg (by omega : ¬ hSampleRate input pos ≤ 0),
    if_neg (by omega : ¬ hFrameLen input pos < 4), if_pos hfit]

lemma scanFrames_emit (input : List Nat) (pos : Nat) (h4 : pos + 4 ≤ input.length)
    (hv : validHeaderAt input pos)
    (hfit : pos + (hFrameLen input pos).toNat ≤ input.length) :
    scanFrames input pos =
      (input.drop pos).take (hFrameLen input pos).toNat ::
        scanFrames input
          (align_after_frame input (pos + (hFrameLen input pos).toNat)
            (hFrameLen input pos)) := by
  obtain ⟨hs, hl, hb, hsr, hfl⟩ := hv
  rw [scanFrames_eq, if_pos h4, if_pos hs, if_pos hl, if_neg (by omega : ¬ hBitrate input pos ≤ 0),
    if_neg (by omega : ¬ hSampleRate input pos ≤ 0),
    if_neg (by omega : ¬ hFrameLen input pos < 4),
    if_neg (by omega : ¬ input.length < pos + (hFrameLen input pos).toNat)]

/-! ### Header decoding only reads the first three header bytes -/

lemma headerFields_congr (in1 : List Nat) (p1 : Nat) (in2 : List Nat) (p2 : Nat)
    (h0 : in1.getD p1 0 = in2.getD p2 0)
    (h1 : in1.getD (p1 + 1) 0 = in2.getD (p2 + 1) 0)
    (h2 : in1.getD (p1 + 2) 0 = in2.getD (p2 + 2) 0) :
    (headerSync in1 p1 ↔ headerSync in2 p2) ∧
    hVersionIdx in1 p1 = hVersionIdx in2 p2 ∧
    hLayer in1 p1 = hLayer in2 p2 ∧
    hBitrateIndex in1 p1 = hBitrateIndex in2 p2 ∧
    hSampleRateIndex in1 p1 = hSampleRateIndex in2 p2 ∧
    hPadding in1 p1 = hPadding in2 p2 ∧
    hBitrate in1 p1 = hBitrate in2 p2 ∧
    hSampleRate in1 p1 = hSampleRate in2 p2 ∧
    hFrameLen in1 p1 = hFrameLen in2 p2 ∧
    (validHeaderAt in1 p1 ↔ validHeaderAt in2 p2) := by
  have hsync : headerSync in1 p1 ↔ headerSync in2 p2 := by
    unfold headerSync; rw [h0, h1]
  have hv : hVersionIdx in1 p1 = hVersionIdx in2 p2 := by
    unfold hVersionIdx; rw [h1]
  have hl : hLayer in1 p1 = hLayer in2 p2 := by
    unfold hLayer; rw [h1]
  have hbi : hBitrateIndex in1 p1 = hBitrateIndex in2 p2 := by
    unfold hBitrateIndex; rw [h2]
  have hsi : hSampleRateIndex in1 p1 = hSampleRateIndex in2 p2 := by
    unfold hSampleRateIndex; rw [h2]
  have hp : hPadding in1 p1 = hPadding in2 p2 := by
    unfold hPadding; rw [h2]
  have hb : hBitrate in1 p1 = hBitrate in2 p2 := by
    unfold hBitrate; rw [hv, hl, hbi]
  have hsr : hSampleRate in1 p1 = hSampleRate in2 p2 := by
    unfold hSampleRate; rw [hv, hsi]
  have hfl : hFrameLen in1 p1 = hFrameLen in2 p2 := by
    unfold hFrameLen; rw [hl, hb, hsr, hp]
  refine ⟨hsync, hv, hl, hbi, hsi, hp, hb, hsr, hfl, ?_⟩
  unfold validHeaderAt
  rw [hsync, hl, hb, hsr, hfl]

/-- Every frame the scan copies re-validates as a header of its own: its first
bytes pass all checks and its computed frame length equals its byte count. -/
lemma frames_valid (input : List Nat) :
    ∀ fuel pos frames, scanFramesFuel fuel input pos = some frames →
      ∀ f ∈ frames, validHeaderAt f 0 ∧ (hFrameLen f 0).toNat = f.length := by
  intro fuel
  induction fuel with
  | zero => intro pos frames h; rw [scanFramesFuel] at h; simp at h
  | succ fuel ih =>
    intro pos frames h
    rw [scanFramesFuel] at h
    split at h
    next h4 =>
      split at h
      next hs =>
        split at h
        next hl =>
          split at h
          next => exact ih _ _ h
          next hb =>
            split at h
            next => exact ih _ _ h
            next hsr =>
              split at h
              next => exact ih _ _ h
              next hfl =>
                split at h
                next =>
                  cases h
                  intro f hf
                  simp at hf
                next hfit =>
                  rw [Option.map_eq_some'] at h
                  obtain ⟨rest, hrest, hcons⟩ := h
                  subst hcons
                  intro f hf
                  rcases List.mem_cons.mp hf with rfl | hfm
                  · have hL : (4 : Int) ≤ hFrameLen input pos := by omega
                    have hfit' : pos + (hFrameLen input pos).toNat ≤ input.length := by omega
                    have htn : 4 ≤ (hFrameLen input pos).toNat := by omega
                    have e0 := frame_getD input pos (hFrameLen input pos).toNat 0 (by omega)
                    have e1 := frame_getD input pos (hFrameLen input pos).toNat 1 (by omega)
                    have e2 := frame_getD input pos (hFrameLen input pos).toNat 2 (by omega)
                    obtain ⟨hsync2, -, -, -, -, -, -, -, hfl2, hvalid2⟩ :=
                      headerFields_congr ((input.drop pos).take (hFrameLen input pos).toNat) 0
                        input pos (by simpa using e0) (by simpa using e1) (by simpa using e2)
                    refine ⟨hvalid2.mpr ⟨hs, hl, by omega, by omega, by omega⟩, ?_⟩
                    rw [hfl2]
                    exact (frame_length input pos _ hfit').symm
                  · exact ih _ _ hrest f hfm
        next => exact ih _ _ h
      next => exact ih _ _ h
    next =>
      cases h
      intro f hf
      simp at hf

/-- A byte list that is a frame on its own: all header checks pass and the
computed frame length is exactly its byte count. -/
def ValidFrame (f : List Nat) : Prop :=
  validHeaderAt f 0 ∧ (hFrameLen f 0).toNat = f.length

instance (f : List Nat) : Decidable (ValidFrame f) := by
  unfold ValidFrame; infer_instance

/-- Scanning a buffer whose suffix from `pos` is an exact tiling of valid
frames yields exactly those frames. -/
lemma scanFrames_tiling (input : List Nat) :
    ∀ (frames : List (List Nat)) (pos : Nat),
      (∀ f ∈ frames, ValidFrame f) →
      input.drop pos = frames.flatten → pos ≤ input.length →
      scanFrames input pos = frames := by
  intro frames
  induction frames with
  | nil =>
    intro pos _ hdrop _
    have hle2 : input.length ≤ pos := List.drop_eq_nil_iff.mp (by simpa using hdrop)
    exact scanFrames_stop input pos (by omega)
  | cons f rest ih =>
    intro pos hvalid hdrop hle
    obtain ⟨hfv, hflen⟩ := hvalid f (List.mem_cons_self f rest)
    have hlen : input.length - pos = f.length + rest.flatten.length := by
      have hc := congrArg List.length hdrop
      simpa [List.length_drop, List.flatten_cons] using hc
    have hfl4 : (4 : Int) ≤ hFrameLen f 0 := hfv.2.2.2.2
    have hn4 : 4 ≤ f.length := by omega
    have transfer : ∀ i, i < f.length → input.getD (pos + i) 0 = f.getD i 0 := by
      intro i hi
      rw [← getD_drop input pos i, hdrop, List.flatten_cons]
      exact List.getD_append f rest.flatten 0 i hi
    obtain ⟨-, -, -, -, -, -, -, -, hfl2, hvalid2⟩ :=
      headerFields_congr input pos f 0 (by simpa using transfer 0 (by omega))
        (by simpa using transfer 1 (by omega)) (by simpa using transfer 2 (by omega))
    have hval_pos : validHeaderAt input pos := hvalid2.mpr hfv
    have htn : (hFrameLen input pos).toNat = f.length := by rw [hfl2, hflen]
    have h4 : pos + 4 ≤ input.length := by omega
    have hfit : pos + (hFrameLen input pos).toNat ≤ input.length := by omega
    have hdrop2 : input.drop (pos + f.length) = rest.flatten := by
      have hdd : (input.drop pos).drop f.length = input.drop (pos + f.length) := by
        rw [List.drop_drop]
      rw [← hdd, hdrop, List.flatten_cons, List.drop_left]
    have hframe : (input.drop pos).take (hFrameLen input pos).toNat = f := by
      rw [htn, hdrop, List.flatten_cons]
      exact List.take_left f rest.flatten
    rw [scanFrames_emit input pos h4 hval_pos hfit, hframe, htn]
    have halign :
        align_after_frame input (pos + f.length) (hFrameLen input pos) = pos + f.length := by
      cases rest with
      | nil =>
        have hlen2 : input.length = pos + f.length := by
          simp only [List.flatten_nil, List.length_nil] at hlen
          omega
        unfold align_after_frame
        rw [if_neg]
        intro hcon
        omega
      | cons g rest' =>
        obtain ⟨hgv, hglen⟩ := hvalid g (List.mem_cons_of_mem f (List.mem_cons_self g rest'))
        have hg4 : (4 : Int) ≤ hFrameLen g 0 := hgv.2.2.2.2
        have hgn4 : 4 ≤ g.length := by omega
        have transfer2 : ∀ i, i < g.length → input.getD (pos + f.length + i) 0 = g.getD i 0 := by
          intro i hi
          rw [← getD_drop input (pos + f.length) i, hdrop2, List.flatten_cons]
          exact List.getD_append g rest'.flatten 0 i hi
        have hsyncg : headerSync input (pos + f.length) := by
          have hg := hgv.1
          unfold headerSync at hg ⊢
          rw [show pos + f.length + 1 = pos + f.length + 1 from rfl]
          constructor
          · rw [show pos + f.length = pos + f.length + 0 from by omega, transfer2 0 (by omega)]
            simpa using hg.1
          · rw [transfer2 1 (by omega)]
            simpa using hg.2
        unfold align_after_frame
        rw [if_neg]
        intro hcon
        exact hcon.2 hsyncg
    rw [halign, ih (pos + f.length) (fun g hg => hvalid g (List.mem_cons_of_mem f hg))
      hdrop2 (by omega)]

/-! ### Output-length bound -/

/-- The copied bytes amount to at most 4/3 of the bytes scanned: each copied
frame has at least 4 bytes and advances the cursor by at least its length
minus one (the step-back byte). -/
lemma scan_output_bound (input : List Nat) :
    ∀ fuel pos frames, scanFramesFuel fuel input pos = some frames →
      3 * frames.flatten.length ≤ 4 * (input.length - pos) := by
  intro fuel
  induction fuel with
  | zero => intro pos frames h; rw [scanFramesFuel] at h; simp at h
  | succ fuel ih =>
    intro pos frames h
    rw [scanFramesFuel] at h
    split at h
    next h4 =>
      split at h
      next hs =>
        split at h
        next hl =>
          split at h
          next => have := ih _ _ h; omega
          next hb =>
            split at h
            next => have := ih _ _ h; omega
            next hsr =>
              split at h
              next => have := ih _ _ h; omega
              next hfl =>
                split at h
                next =>
                  cases h
                  simp
                next hfit =>
                  rw [Option.map_eq_some'] at h
                  obtain ⟨rest, hrest, hcons⟩ := h
                  subst hcons
                  have hL : (4 : Int) ≤ hFrameLen input pos := by omega
                  have hfit' : pos + (hFrameLen input pos).toNat ≤ input.length := by omega
                  have htn : 4 ≤ (hFrameLen input pos).toNat := by omega
                  have hge := align_after_frame_ge input (pos + (hFrameLen input pos).toNat)
                    (hFrameLen input pos) hfit'
                  have hrec := ih _ _ hrest
                  have hflen := frame_length input pos (hFrameLen input pos).toNat hfit'
                  simp only [List.flatten_cons, List.length_append, hflen]
                  omega
        next => have := ih _ _ h; omega
      next => have := ih _ _ h; omega
    next =>
      cases h
      simp

/-! ### Sync-valid headers always carry version-bit field 2 or 3 -/

/-- If the second sync byte passes the `(b & 0xF0) == 0xF0` check then bit 4
of that byte is set, so the two-bit version field `(b >> 3) & 0x03` is at
least 2.  Genuine MPEG-2.5 headers (version field 0) therefore always fail
the sync check of this scanner. -/
lemma sync_version_bits (b : Nat) (h : b &&& 0xF0 = 0xF0) :
    2 ≤ (b >>> 3) &&& 0x03 := by
  have h16 : b &&& 16 = 16 := by
    have hc := congrArg (fun x => x &&& 16) h
    simp only at hc
    rw [Nat.and_assoc] at hc
    simpa using hc
  have ht : b.testBit 4 = true := by
    have h2 : (b &&& 16).testBit 4 = true := by rw [h16]; decide
    exact (by simpa [Nat.testBit_land] using h2 :
      b.testBit 4 = true ∧ Nat.testBit 16 4 = true).1
  rw [Nat.testBit_to_div_mod] at ht
  have hb4 : b / 16 % 2 = 1 := by simpa using ht
  have hmask : (b >>> 3) &&& 3 = b / 8 % 4 := by
    rw [Nat.shiftRight_eq_div_pow]
    have hm := Nat.and_pow_two_sub_one_eq_mod (b / 2 ^ 3) 2
    simpa using hm
  have hdd : b / 8 / 2 = b / 16 := by omega
  rw [show (0x03 : Nat) = 3 from rfl, hmask]
  omega

/-- Every frame copied to the output carries a version-bit field of 2 or 3. -/
lemma frames_version_bits (input : List Nat) (f : List Nat)
    (hf : f ∈ scanFrames input 0) : 2 ≤ (f.getD 1 0 >>> 3) &&& 0x03 := by
  have hv := frames_valid input (input.length + 1) 0 _ (scanFrames_some input 0) f hf
  have hsync := hv.1.1.2
  exact sync_version_bits _ (by simpa using hsync)

/-! ### Characterization of the round-up-to-multiple-of-4 helper -/

lemma next_multiple_of_4_spec (n : Int) (h : 0 ≤ n) :
    n ≤ next_multiple_of_4 n ∧ next_multiple_of_4 n < n + 4 ∧
      (4 : Int) ∣ next_multiple_of_4 n := by
  have hadd := Int.tdiv_add_tmod n 4
  have hnn := Int.tmod_nonneg 4 h
  have hlt := Int.tmod_lt_of_pos n (by omega : (0 : Int) < 4)
  simp only [next_multiple_of_4]
  split
  next hz =>
    refine ⟨le_refl n, by omega, ⟨n.tdiv 4, by omega⟩⟩
  next hz =>
    refine ⟨by omega, by omega, ⟨n.tdiv 4 + 1, by omega⟩⟩

/-! ### Claims -/

/-- Claim C1 counterexample: the output of `fix_fsb5_mpeg` can be strictly
longer than its input.  On `overlapInput` (95 bytes) the step-back-one-byte
recovery moves the cursor back into the frame that was just copied, and a
second frame overlapping it by one byte is copied, giving 96 output bytes. -/
theorem c1_counterexample :
    overlapInput.length < (fix_fsb5_mpeg overlapInput).length := by decide

/-- Claim C1 amended: the output is not always at most as long as the input;
what holds is the bound 3 * output length ≤ 4 * input length, because each
copied frame has at least 4 bytes and advances the cursor by at least its
length minus the one step-back byte. -/
theorem c1_amended (input : List Nat) :
    3 * (fix_fsb5_mpeg input).length ≤ 4 * input.length := by
  have h := scan_output_bound input (input.length + 1) 0 (scanFrames input 0)
    (scanFrames_some input 0)
  simpa [fix_fsb5_mpeg] using h

/-- Claim C2: `encode` reads exactly `info.size` bytes from the reader before
invoking the repairer; a failure to obtain that declared byte count, and a
failure to write the repaired output, both surface as an `MpegError` of kind
`EncodeStream`; on success the sink is returned after the repaired bytes
(`fix_fsb5_mpeg` of exactly the bytes read) are written in full. -/
theorem c2_encode (info : StreamInfo) (source : List Nat)
    (writeAll : List Nat → Except IoError (List Nat)) :
    (info.size ≤ source.length →
      readExact source info.size = .ok (source.take info.size) ∧
      (source.take info.size).length = info.size ∧
      (∀ e, writeAll (fix_fsb5_mpeg (source.take info.size)) = .error e →
        encode info source writeAll = .error ⟨MpegErrorKind.EncodeStream, e⟩) ∧
      (∀ sink, writeAll (fix_fsb5_mpeg (source.take info.size)) = .ok sink →
        encode info source writeAll = .ok sink)) ∧
    (source.length < info.size →
      encode info source writeAll = .error ⟨MpegErrorKind.EncodeStream, ⟨0⟩⟩) := by
  constructor
  · intro hle
    have hre : readExact source info.size = .ok (source.take info.size) := by
      unfold readExact
      rw [if_pos hle]
    refine ⟨hre, ?_, ?_, ?_⟩
    · rw [List.length_take]
      exact min_eq_left hle
    · intro e he
      simp [encode, hre, he]
    · intro sink hsink
      simp [encode, hre, hsink]
  · intro hlt
    have hre : readExact source info.size = .error ⟨0⟩ := by
      unfold readExact
      rw [if_neg (by omega)]
    simp [encode, hre]

/-- Claim C2 witness: a successful run (short malformed stream repaired to
the empty stream) and a short-read failure with kind `EncodeStream`. -/
theorem c2_encode_witness :
    encode ⟨2⟩ [0xFF, 0x00, 0x01] (fun bs => Except.ok bs) = Except.ok [] ∧
    encode ⟨5⟩ [1, 2] (fun bs => Except.ok bs) =
      Except.error ⟨MpegErrorKind.EncodeStream, ⟨0⟩⟩ := by
  constructor
  · exact ((c2_encode ⟨2⟩ [0xFF, 0x00, 0x01] (fun bs => Except.ok bs)).1
      (by decide)).2.2.2 [] rfl
  · exact (c2_encode ⟨5⟩ [1, 2] (fun bs => Except.ok bs)).2 (by decide)

/-- Claim C3 counterexample: a sync-valid header whose bitrate index is 0
resolves to the table value 0 — not the −1 reserved sentinel — and the
scanner nevertheless rejects it (the `bitrate <= 0` test), advancing the
cursor by one byte and copying nothing. -/
theorem c3_counterexample :
    headerSync freeBitrateInput 0 ∧
    hBitrateIndex freeBitrateInput 0 = 0 ∧
    hBitrate freeBitrateInput 0 = 0 ∧
    scanFrames freeBitrateInput 0 = scanFrames freeBitrateInput 1 ∧
    fix_fsb5_mpeg freeBitrateInput = [] := by decide

/-- Claim C3 amended: any resolved bitrate ≤ 0 — the index-0 "free" slot's
table value 0 as well as the −1 reserved sentinel — causes the
advance-cursor-by-1 rejection. -/
theorem c3_amended (input : List Nat) (pos : Nat) (h4 : pos + 4 ≤ input.length)
    (hs : headerSync input pos)
    (hl : 1 ≤ hLayer input pos ∧ hLayer input pos ≤ 3)
    (hb : hBitrate input pos ≤ 0) :
    scanFrames input pos = scanFrames input (pos + 1) := by
  apply scanFrames_reject input pos h4
  intro hv
  have := hv.2.2.1
  omega

/-- Claim C3 amended witness, at the bitrate-index-0 header `FF FA 00 00`. -/
theorem c3_amended_witness :
    scanFrames freeBitrateInput 0 = scanFrames freeBitrateInput 1 :=
  c3_amended freeBitrateInput 0 (by decide) (by decide) (by decide) (by decide)

/-- Claim C4: on an input that is an exact tiling of valid frames (each
frame passes every header check and its computed frame length equals its
byte count), `fix_fsb5_mpeg` returns the input byte-for-byte. -/
theorem c4_clean_idempotent (frames : List (List Nat))
    (h : ∀ f ∈ frames, ValidFrame f) :
    fix_fsb5_mpeg frames.flatten = frames.flatten := by
  unfold fix_fsb5_mpeg
  rw [scanFrames_tiling frames.flatten frames 0 h (by simp) (by simp)]

/-- Claim C4 witness: two clean back-to-back 48-byte frames. -/
theorem c4_witness :
    fix_fsb5_mpeg ([frame48, frame48].flatten) = [frame48, frame48].flatten :=
  c4_clean_idempotent [frame48, frame48] (by decide)

/-- Claim C5: when a valid header at `pos` computes a frame length that runs
past the buffer end, the scan stops at once: no frame (not even a prefix) is
emitted from `pos` on, so the whole output is exactly what was accumulated
before reaching `pos`. -/
theorem c5_truncation (input : List Nat) (pos : Nat) (h4 : pos + 4 ≤ input.length)
    (hv : validHeaderAt input pos)
    (hfit : input.length < pos + (hFrameLen input pos).toNat) :
    scanFrames input pos = [] :=
  scanFrames_break input pos h4 hv hfit

/-- Claim C5 witness: a valid 48-byte-frame header with only 10 bytes of
buffer. -/
theorem c5_witness : scanFrames truncatedInput 0 = [] :=
  c5_truncation truncatedInput 0 (by decide) (by decide) (by decide)

/-- Claim C6: for positive bitrate and sample rate and padding bit 0 or 1,
the frame length is `((12 * bitrate * 1000) / sample_rate + padding) * 4`
for Layer I and `(144 * bitrate * 1000) / sample_rate + padding` for Layers
II and III, where the division is truncating integer division (on these
positive operands it coincides with natural-number floor division).  Layers
II and III use the same formula: no MPEG-2/2.5 Layer III 72-multiplier case
exists. -/
theorem c6_frame_len (layer : Nat) (bitrate sampleRate padding : Int)
    (hb : 0 < bitrate) (hsr : 0 < sampleRate) (hp : padding = 0 ∨ padding = 1) :
    get_mpeg_frame_len_bytes 1 bitrate sampleRate padding =
      ((12 * bitrate * 1000).tdiv sampleRate + padding) * 4 ∧
    ((layer = 2 ∨ layer = 3) →
      get_mpeg_frame_len_bytes layer bitrate sampleRate padding =
        (144 * bitrate * 1000).tdiv sampleRate + padding) ∧
    get_mpeg_frame_len_bytes 2 bitrate sampleRate padding =
      get_mpeg_frame_len_bytes 3 bitrate sampleRate padding ∧
    (12 * bitrate * 1000).tdiv sampleRate =
      ((12 * bitrate.toNat * 1000) / sampleRate.toNat : Nat) ∧
    (144 * bitrate * 1000).tdiv sampleRate =
      ((144 * bitrate.toNat * 1000) / sampleRate.toNat : Nat) := by
  have hbn : (bitrate.toNat : Int) = bitrate := Int.toNat_of_nonneg (by omega)
  have hsn : (sampleRate.toNat : Int) = sampleRate := Int.toNat_of_nonneg (by omega)
  refine ⟨by simp [get_mpeg_frame_len_bytes], ?_, by simp [get_mpeg_frame_len_bytes], ?_, ?_⟩
  · rintro (rfl | rfl) <;> simp [get_mpeg_frame_len_bytes]
  · rw [← hbn, ← hsn]
    have hc : (12 : Int) * (bitrate.toNat : Int) * 1000 =
        ((12 * bitrate.toNat * 1000 : Nat) : Int) := by push_cast; ring
    rw [hc]
    rfl
  · rw [← hbn, ← hsn]
    have hc : (144 : Int) * (bitrate.toNat : Int) * 1000 =
        ((144 * bitrate.toNat * 1000 : Nat) : Int) := by push_cast; ring
    rw [hc]
    rfl

/-- Claim C6 witness: MPEG-2 Layer III, 8 kbps, 24000 Hz, no padding. -/
theorem c6_witness :
    get_mpeg_frame_len_bytes 3 8 24000 0 = (144 * 8 * 1000 : Int).tdiv 24000 + 0 ∧
    (144 * (8 : Int) * 1000).tdiv 24000 = ((144 * 8 * 1000) / 24000 : Nat) := by
  have h := c6_frame_len 3 8 24000 0 (by decide) (by decide) (Or.inl rfl)
  exact ⟨h.2.1 (Or.inr rfl), by simpa using h.2.2.2.2⟩

/-- Claim C7: after a frame is copied and the cursor stands at `p`, the
cursor is left unchanged when fewer than 2 bytes remain or the two bytes at
`p` form a sync pattern; otherwise it advances by
`next_multiple_of_4 frameLen - frameLen` clamped to the buffer end, then to
the first position `q` past every consecutive zero byte (all bytes strictly
before `q` from the seek target on are zero, and the byte at `q` is non-zero
unless `q` is the end), and finally steps back exactly one byte when `q` has
not reached the end.  `next_multiple_of_4` indeed rounds up to a multiple of
4 less than 4 away. -/
theorem c7_align (input : List Nat) (p : Nat) (L : Int) :
    ((input.length < p + 2 ∨ headerSync input p) → align_after_frame input p L = p) ∧
    (p + 2 ≤ input.length → ¬ headerSync input p →
      ∃ q, min (p + (next_multiple_of_4 L - L).toNat) input.length ≤ q ∧
        q ≤ input.length ∧
        (∀ i, min (p + (next_multiple_of_4 L - L).toNat) input.length ≤ i → i < q →
          input.getD i 0 = 0) ∧
        (q < input.length → input.getD q 0 ≠ 0) ∧
        align_after_frame input p L = if q < input.length then q - 1 else q) ∧
    (0 ≤ L → L ≤ next_multiple_of_4 L ∧ next_multiple_of_4 L < L + 4 ∧
      (4 : Int) ∣ next_multiple_of_4 L) := by
  refine ⟨?_, ?_, next_multiple_of_4_spec L⟩
  · intro h
    unfold align_after_frame
    rw [if_neg]
    intro hcon
    rcases h with h | h
    · omega
    · exact hcon.2 h
  · intro h1 h2
    refine ⟨skipZeros input (min (p + (next_multiple_of_4 L - L).toNat) input.length),
      skipZeros_ge input _, skipZeros_le_length input _ (min_le_right _ _),
      fun i hi1 hi2 => skipZeros_zero_below input _ i hi1 hi2,
      fun hlt => skipZeros_stop input _ hlt, ?_⟩
    unfold align_after_frame
    rw [if_pos ⟨h1, h2⟩]

/-- Claim C7 witness: at offset 2 of `c7W` a sync pattern follows, so the
cursor is untouched; at offset 4 (frame length 4, seek 0) the zero run at
offsets 4..5 is skipped and the cursor steps back one byte to 5. -/
theorem c7_witness :
    align_after_frame c7W 2 4 = 2 ∧ align_after_frame c7W 4 4 = 5 := by
  constructor
  · exact (c7_align c7W 2 4).1 (Or.inr (by decide))
  · obtain ⟨q, hq1, hq2, hq3, hq4, hq5⟩ := (c7_align c7W 4 4).2.1 (by decide) (by decide)
    have e : min (4 + (next_multiple_of_4 4 - 4).toNat) c7W.length = 4 := by decide
    rw [e] at hq1 hq3
    have hlen : c7W.length = 8 := by decide
    rw [hlen] at hq2 hq4 hq5
    have hq6 : q = 6 := by
      have hA : ¬ q ≤ 5 := by
        intro hle
        have hnz := hq4 (by omega)
        interval_cases q
        · exact hnz (by decide)
        · exact hnz (by decide)
      have hB : q < 7 := by
        by_contra hge
        have hz := hq3 6 (by omega) (by omega)
        exact absurd hz (by decide)
      omega
    rw [hq6] at hq5
    simpa using hq5

/-- Claim C8: every frame that the scan copies re-validates when its own
first 4 bytes are decoded: all header checks pass and the computed frame
length equals the number of bytes copied for it.  Since every copied frame
is at least 4 bytes long, re-scanning the output from offset 0 reads each
such header entirely inside its frame, so every frame re-validates at the
boundary where it was placed. -/
theorem c8_frames_valid (input : List Nat) (f : List Nat)
    (hf : f ∈ scanFrames input 0) :
    validHeaderAt f 0 ∧ (hFrameLen f 0).toNat = f.length :=
  frames_valid input (input.length + 1) 0 (scanFrames input 0)
    (scanFrames_some input 0) f hf

/-- Claim C8 witness: the first frame copied from two clean back-to-back
48-byte frames. -/
theorem c8_witness :
    validHeaderAt frame48 0 ∧ (hFrameLen frame48 0).toNat = frame48.length :=
  c8_frames_valid (frame48 ++ frame48) frame48 (by decide)

/-- Claim C9: the scan always terminates — `input.length + 1` fuel never
runs out, on any input — and `fix_fsb5_mpeg` always returns the (possibly
empty) concatenation of the scanned frames; moreover every rejected
candidate header advances the cursor by exactly one byte before scanning
resumes. -/
theorem c9_total (input : List Nat) :
    scanFramesFuel (input.length + 1) input 0 = some (scanFrames input 0) ∧
    fix_fsb5_mpeg input = (scanFrames input 0).flatten ∧
    (∀ pos, pos + 4 ≤ input.length → ¬ validHeaderAt input pos →
      scanFrames input pos = scanFrames input (pos + 1)) := by
  refine ⟨scanFrames_some input 0, rfl, ?_⟩
  intro pos h4 hrej
  exact scanFrames_reject input pos h4 hrej

/-- Claim C9 witness: a fully malformed 5-byte input terminates with fuel to
spare, and its first (rejected) candidate advances the cursor by one. -/
theorem c9_witness :
    scanFramesFuel ([5, 6, 7, 8, 9].length + 1) [5, 6, 7, 8, 9] 0 =
      some (scanFrames [5, 6, 7, 8, 9] 0) ∧
    scanFrames [5, 6, 7, 8, 9] 0 = scanFrames [5, 6, 7, 8, 9] 1 := by
  have h := c9_total [5, 6, 7, 8, 9]
  exact ⟨h.1, h.2.2 0 (by decide) (by decide)⟩

/-- Claim C10 counterexample: the claim's premise cannot occur.  At the
genuine MPEG-2.5 header `FF E2 14 00` the version-bit field is 0, but the
header is not sync-valid — `0xE2 &&& 0xF0 = 0xE0` — so the candidate is
rejected at the sync check (cursor advancing by one, nothing copied), never
reaching the version-index-3 / `get_mpeg_sample_rate` path the claim
describes. -/
theorem c10_counterexample :
    (mpeg25Input.getD 1 0 >>> 3) &&& 0x03 = 0 ∧
    ¬ headerSync mpeg25Input 0 ∧
    scanFrames mpeg25Input 0 = scanFrames mpeg25Input 1 ∧
    fix_fsb5_mpeg mpeg25Input = [] := by decide

/-- Claim C10 amended: no sync-valid candidate header can carry version-bit
field 0, because the sync test `(b & 0xF0) == 0xF0` forces bit 4 of the
second byte.  A candidate whose version-bit field is 0 is therefore rejected
at the sync check with the cursor advancing by one byte, and every frame
copied to the output carries a version-bit field of 2 or 3 — so no frame
with version bits 00 is ever copied. -/
theorem c10_amended :
    (∀ (input : List Nat) (pos : Nat), pos + 4 ≤ input.length →
      (input.getD (pos + 1) 0 >>> 3) &&& 0x03 = 0 →
      ¬ headerSync input pos ∧ scanFrames input pos = scanFrames input (pos + 1)) ∧
    (∀ (input : List Nat) (f : List Nat), f ∈ scanFrames input 0 →
      2 ≤ (f.getD 1 0 >>> 3) &&& 0x03) := by
  constructor
  · intro input pos h4 hv0
    have hns : ¬ headerSync input pos := by
      intro hs
      have := sync_version_bits _ hs.2
      omega
    exact ⟨hns, scanFrames_reject input pos h4 (fun hv => hns hv.1)⟩
  · intro input f hf
    exact frames_version_bits input f hf

/-- Claim C10 amended witness: the genuine MPEG-2.5 header is rejected at
the sync check, and a frame actually copied carries version field 2. -/
theorem c10_witness :
    (¬ headerSync mpeg25Input 0 ∧
      scanFrames mpeg25Input 0 = scanFrames mpeg25Input 1) ∧
    2 ≤ (frame48.getD 1 0 >>> 3) &&& 0x03 :=
  ⟨c10_amended.1 mpeg25Input 0 (by decide) (by decide),
    c10_amended.2 (frame48 ++ frame48) frame48 (by decide)⟩
